import Mathlib

/-!
Shallow embedding of the type-hierarchy tree core of `vscode-references-view`
(files `src/types/model.ts`, `src/types/protocol.ts`).

Mutable `TypeItem` objects with `parent` / `children` references are modelled
as an arena: a `ModelState` holds a list of `TypeItemData` records, and a node
is identified by its index (`NodeId`) into that list.  JavaScript reference
equality between nodes is equality of `NodeId`s.  Asynchronous external
queries (`vscode.commands.executeCommand('typeHierarchy.supertypes' / '…subtypes', …)`)
are modelled as oracle functions returning `Option (List TypeHierarchyItem)`:
`none` models an absent result (the `!types` check in `_resolveTypes`).
Event emitters are modelled as logs appended to the state.
-/

namespace TypesView

/-- A `vscode.Range`, reduced to its four numeric coordinates. -/
structure Range where
  startLine : Nat
  startChar : Nat
  stopLine : Nat
  stopChar : Nat
deriving DecidableEq

/-- `DocumentUri` from `src/types/protocol.ts`: `export declare type DocumentUri = string`. -/
abbrev DocumentUri := String

/-- `vscode.SymbolKind` is a TypeScript numeric enum; we keep the numeric value. -/
abbrev SymbolKind := Nat

/-- `vscode.SymbolKind.Class = 4`. -/
def SymbolKind.Class : SymbolKind := 4

/-- `vscode.SymbolKind.Interface = 10`. -/
def SymbolKind.Interface : SymbolKind := 10

/-- `TypeHierarchyItem` from `src/types/protocol.ts`.  The `data?: unknown`
field is an opaque provider payload never read by this core and is omitted;
`tags` are kept as their numeric `SymbolTag` values. -/
structure TypeHierarchyItem where
  name : String
  kind : SymbolKind
  tags : Option (List Nat)
  detail : Option String
  uri : DocumentUri
  range : Range
  selectionRange : Range
deriving DecidableEq

/-- `TypeHierarchyView` from `src/types/model.ts` (`const enum`). -/
inductive TypeHierarchyView where
  | Supertype
  | Subtype
  | Class
deriving DecidableEq

/-- Node identifier: index into the arena of `TypeItemData`.  Equality of
`NodeId`s models JavaScript reference equality of `TypeItem` objects. -/
abbrev NodeId := Nat

/-- The mutable fields of a `TypeItem` (class `TypeItem`, `src/types/model.ts`
lines 67-84): the wrapped item, `parent?: TypeItem`, `children?: TypeItem[]`,
`expand?: boolean` (only ever set to `true`; `undefined` is falsy, so a `Bool`
that starts `false` models it). -/
structure TypeItemData where
  item : TypeHierarchyItem
  parent : Option NodeId
  children : Option (List NodeId)
  expand : Bool
deriving DecidableEq

/-- Payload of `TypesModel._onDidChange` as seen dynamically by the adapter's
listener, which guards with `e instanceof TypeItem`: either the model itself
or some node. -/
inductive ModelEvent where
  | model
  | node (id : NodeId)
deriving DecidableEq

/-- The direction of a hierarchy query: which of the two commands
(`typeHierarchy.supertypes` / `typeHierarchy.subtypes`) `_resolveTypes` invokes. -/
inductive QueryDirection where
  | supertypes
  | subtypes
deriving DecidableEq

/-- Combined state of a `TypesModel` and its `TypeItemDataProvider`:
the view, the node arena, the root id sequence, the log of payloads fired on
the model's `_onDidChange` emitter, the log of payloads fired on the
provider's `_emitter` (`TypeItem | undefined`), and a log of the hierarchy
queries issued to the external service. -/
structure ModelState where
  view : TypeHierarchyView
  nodes : List TypeItemData
  roots : List NodeId
  events : List ModelEvent
  adapterEvents : List (Option NodeId)
  queries : List TypeHierarchyItem
deriving DecidableEq

/-- The oracle behind `executeCommand('typeHierarchy.supertypes' | '…subtypes', item, token)`:
`none` models an absent result. -/
abbrev Fetch := TypeHierarchyItem → QueryDirection → Option (List TypeHierarchyItem)

/-- The supertype-only oracle used by `getClassViewRoot`. -/
abbrev SuperFetch := TypeHierarchyItem → Option (List TypeHierarchyItem)

/-- Overwrite the data of node `id` (no-op when the id is not allocated,
which cannot happen for a live JavaScript object). -/
def updateNode (s : ModelState) (id : NodeId) (f : TypeItemData → TypeItemData) : ModelState :=
  { s with nodes :=
      match s.nodes[id]? with
      | some d => s.nodes.set id (f d)
      | none => s.nodes }

/-- The adapter's model subscription, `src/types/model.ts` line 172:
`e => this._emitter.fire(e instanceof TypeItem ? e : undefined)`. -/
def adapterListener : ModelEvent → Option NodeId
  | ModelEvent.node id => some id
  | ModelEvent.model => none

/-- `this._onDidChange.fire(e)` with the provider subscribed: the payload is
appended to the model's event log and, through the subscription of line 172,
`adapterListener e` is fired on the provider's emitter. -/
def fireModelEvent (s : ModelState) (e : ModelEvent) : ModelState :=
  { s with
      events := s.events ++ [e]
      adapterEvents := s.adapterEvents ++ [adapterListener e] }

/-- `new TypesModel(view, items)` (lines 94-96): one root node per prepared
item, each constructed with `parent = undefined`. -/
def mkModel (view : TypeHierarchyView) (items : List TypeHierarchyItem) : ModelState :=
  { view := view
    nodes := items.map fun it => { item := it, parent := none, children := none, expand := false }
    roots := List.range items.length
    events := []
    adapterEvents := []
    queries := [] }

/-- Lexicographic comparison of character sequences by code point: the order
JavaScript string comparison uses on the strings this code compares. -/
def charListLt : List Char → List Char → Bool
  | [], [] => false
  | [], _ :: _ => true
  | _ :: _, [] => false
  | c :: cs, d :: ds =>
    if c.toNat < d.toNat then true
    else if d.toNat < c.toNat then false
    else charListLt cs ds

/-- Strict lexicographic string order (code-unit order). -/
def strLt (a b : String) : Bool := charListLt a.data b.data

/-- Models JavaScript `String.prototype.localeCompare`: negative, zero or
positive as the receiver sorts before, equal to, or after the argument.  For
the strings this code compares (decimal kind strings and symbol names) the
default locale agrees with code-unit order, modelled by `strLt`. -/
def localeCompare (a b : String) : Int :=
  if strLt a b then -1 else if strLt b a then 1 else 0

/-- `kind.toString()` on a numeric enum value: its decimal string. -/
def kindToString (k : SymbolKind) : String := toString k

/-- The sort comparator of `_resolveTypes` (line 106):
`(a.kind.toString() === b.kind.toString()) ? a.name.localeCompare(b.name) : b.kind.toString().localeCompare(a.kind.toString())`. -/
def compareItems (a b : TypeHierarchyItem) : Int :=
  if kindToString a.kind = kindToString b.kind then localeCompare a.name b.name
  else localeCompare (kindToString b.kind) (kindToString a.kind)

/-- Insert `x` into `l`, placing it before the first element `y` with
`cmp x y < 0` (so after every element it ties with). -/
def insertCmp (cmp : α → α → Int) (x : α) : List α → List α
  | [] => [x]
  | y :: ys => if cmp x y < 0 then x :: y :: ys else y :: insertCmp cmp x ys

/-- Stable comparator sort modelling `Array.prototype.sort(cmp)` (ECMAScript
sort is stable and, for a consistent comparator, sortedness plus stability
determine the result uniquely). -/
def sortCmp (cmp : α → α → Int) (l : List α) : List α :=
  l.foldl (fun acc x => insertCmp cmp x acc) []

/-- Which query `_resolveTypes` issues (lines 99-101): `supertypes` when the
view is Supertype, otherwise (Subtype and Class views alike) `subtypes`. -/
def queryDirection (v : TypeHierarchyView) : QueryDirection :=
  if v = TypeHierarchyView.Supertype then QueryDirection.supertypes else QueryDirection.subtypes

/-- `TypesModel._resolveTypes` (lines 98-109): issue the query; an absent
result returns `[]`; otherwise sort with `compareItems` and wrap each item as
a fresh node with `parent = type`.  Returns the new state and the child ids. -/
def resolveTypes (fetch : Fetch) (s : ModelState) (id : NodeId) : ModelState × List NodeId :=
  match s.nodes[id]? with
  | none => (s, [])
  | some nd =>
    let s := { s with queries := s.queries ++ [nd.item] }
    match fetch nd.item (queryDirection s.view) with
    | none => (s, [])
    | some types =>
      let sorted := sortCmp compareItems types
      let base := s.nodes.length
      ({ s with
          nodes := s.nodes ++ sorted.map fun it =>
            { item := it, parent := some id, children := none, expand := false } },
        (List.range sorted.length).map (· + base))

/-- `TypesModel.getTypeChildren` (lines 111-116): cache-through child
resolution — `if (!type.children) { type.children = await this._resolveTypes(type); } return type.children`. -/
def getTypeChildren (fetch : Fetch) (s : ModelState) (id : NodeId) : ModelState × List NodeId :=
  match s.nodes[id]? with
  | none => (s, [])
  | some nd =>
    match nd.children with
    | some cs => (s, cs)
    | none =>
      let (s1, cs) := resolveTypes fetch s id
      (updateNode s1 id (fun d => { d with children := some cs }), cs)

/-- Modelled from the spec: `tail` from `src/utils.ts`, which is not among the
provided sources.  Per the spec, `previous` with a resolved child moves to the
"last child", so `tail` yields the last element of a sequence (`undefined`,
i.e. `none`, on an empty one). -/
def tail (l : List α) : Option α := l.getLast?

/-- JavaScript `Array.prototype.indexOf`: the first index of the element, or
`-1` when it does not occur. -/
def jsIndexOf (l : List NodeId) (x : NodeId) : Int :=
  match l with
  | [] => -1
  | y :: ys =>
    if y = x then 0
    else
      let r := jsIndexOf ys x
      if r < 0 then -1 else r + 1

/-- JavaScript indexed array read `array[k]` with a possibly negative or
out-of-range index: `undefined` (`none`) outside the bounds. -/
def jsGet (l : List α) (k : Int) : Option α :=
  if k < 0 then none else l[k.toNat]?

/-- `TypesModel._move` (lines 136-146).  With a non-empty resolved child list,
descend to first/last child.  Otherwise take the sibling array (the roots if
the node is one of them, else `item.parent?.children`) and, when it is
non-empty, read `array[idx + delta + array.length % array.length]` — exactly
as written in the source, where `%` binds tighter than `+`, so the offset is
`idx + delta` and the read falls off the ends instead of wrapping. -/
def move (s : ModelState) (id : NodeId) (fwd : Bool) : Option NodeId :=
  match s.nodes[id]? with
  | none => none
  | some nd =>
    match nd.children with
    | some (c :: cs) => if fwd then some c else tail (c :: cs)
    | _ =>
      let array : Option (List NodeId) :=
        if s.roots.contains id then some s.roots
        else nd.parent.bind fun p => (s.nodes[p]?).bind fun pd => pd.children
      match array with
      | some arr =>
        if arr.isEmpty then none
        else
          let idx : Int := jsIndexOf arr id
          let delta : Int := if fwd then 1 else -1
          let len : Int := arr.length
          jsGet arr (idx + delta + len % len)
      | none => none

/-- `TypesModel.next` (lines 128-130): `this._move(from, true) ?? from`. -/
def next (s : ModelState) (id : NodeId) : NodeId := (move s id true).getD id

/-- `TypesModel.previous` (lines 132-134): `this._move(from, false) ?? from`. -/
def previous (s : ModelState) (id : NodeId) : NodeId := (move s id false).getD id

/-- A `vscode.Uri` object: its string value together with an allocation
identity.  JavaScript `===` between two `Uri` objects compares identity, not
value; `objId` models the identity. -/
structure UriObj where
  value : String
  objId : Nat
deriving DecidableEq

/-- `vscode.Uri.parse(s)` allocates a fresh object on every call; `freshId` is
the identity of that fresh allocation, distinct from the identity of every
object that existed before the call. -/
def uriParse (freshId : Nat) (s : String) : UriObj := { value := s, objId := freshId }

/-- JavaScript `===` on two `Uri` objects: reference equality. -/
def jsStrictEq (a b : UriObj) : Bool := a.objId == b.objId

/-- `TypesModel.getEditorHighlights` (lines 148-150):
`return vscode.Uri.parse(item.item.uri) === uri ? [item.item.selectionRange] : []`.
The `Uri` parsed from the node's uri string is a fresh allocation with
identity `freshId`; the query argument `uri` is a pre-existing object. -/
def getEditorHighlights (s : ModelState) (id : NodeId) (uri : UriObj) (freshId : Nat) :
    Option (List Range) :=
  (s.nodes[id]?).map fun nd =>
    if jsStrictEq (uriParse freshId nd.item.uri) uri then [nd.item.selectionRange] else []

/-- Modelled from the spec: `del` from `src/utils.ts`, which is not among the
provided sources.  Per the spec, `remove` "deletes the node from that array in
place" and deleting an absent node is harmless, so `del` removes the first
occurrence of the element when present and otherwise leaves the list unchanged. -/
def del (l : List NodeId) (x : NodeId) : List NodeId :=
  match l with
  | [] => []
  | y :: ys => if y = x then ys else y :: del ys x

/-- `TypesModel.remove` (lines 152-159): pick the sibling array (`roots` when
the node is a root, else `item.parent?.children`); when one exists — note the
JavaScript truthiness test `if (siblings)` is true for an empty array — delete
the node from it and fire the change event with the model as payload. -/
def remove (s : ModelState) (id : NodeId) : ModelState :=
  if s.roots.contains id then
    fireModelEvent { s with roots := del s.roots id } ModelEvent.model
  else
    match (s.nodes[id]?).bind fun nd => nd.parent with
    | none => s
    | some p =>
      match (s.nodes[p]?).bind fun pd => pd.children with
      | none => s
      | some sib =>
        fireModelEvent
          (updateNode s p fun d => { d with children := some (del sib id) })
          ModelEvent.model

/-- First class-kind element of a supertype result list: the loop of
`getClassViewRoot` (lines 230-237). -/
def findFirstClass : List TypeHierarchyItem → Option TypeHierarchyItem
  | [] => none
  | t :: ts => if t.kind = SymbolKind.Class then some t else findFirstClass ts

/-- The linking step of `getClassViewRoot` (lines 232-234): allocate
`parentItem = new TypeItem(model, supertype, undefined)`, set
`rootClass.parent = parentItem` and `parentItem.children = [rootClass]`. -/
def classLink (s : ModelState) (id : NodeId) (sup : TypeHierarchyItem) : ModelState × NodeId :=
  let pid := s.nodes.length
  let s := { s with
    nodes := s.nodes ++ [{ item := sup, parent := none, children := none, expand := false }] }
  let s := updateNode s id fun d => { d with parent := some pid }
  let s := updateNode s pid fun d => { d with children := some [id] }
  (s, pid)

/-- `TypeItemDataProvider.getClassViewRoot` (lines 224-239): set
`rootClass.expand = true`, query supertypes, return the node when the result
is absent or empty or holds no class-kind item, otherwise link the first
class-kind supertype as a fresh parent and recurse on it.  The source
recursion has no cycle guard and need not terminate, so the embedding takes
fuel; exhausted fuel returns the current node. -/
def getClassViewRoot (superFetch : SuperFetch) :
    Nat → ModelState → NodeId → ModelState × NodeId
  | 0, s, id => (s, id)
  | Nat.succ fuel, s, id =>
    match s.nodes[id]? with
    | none => (s, id)
    | some nd =>
      let s := updateNode s id fun d => { d with expand := true }
      let s := { s with queries := s.queries ++ [nd.item] }
      match superFetch nd.item with
      | none => (s, id)
      | some supertypes =>
        if supertypes.isEmpty then (s, id)
        else
          match findFirstClass supertypes with
          | none => (s, id)
          | some sup =>
            getClassViewRoot superFetch fuel (classLink s id sup).1 (classLink s id sup).2

/-- `TypeItemDataProvider.getChildren` (lines 208-222): at top level in Class
view, return the class-view root synthesized from the first class-kind root
(or nothing); otherwise the roots at top level, or the model's resolved
children for a node — firing the provider's emitter on the node when the
resolved child list is empty. -/
def adapterGetChildren (fetch : Fetch) (superFetch : SuperFetch) (fuel : Nat)
    (s : ModelState) (element : Option NodeId) : ModelState × List NodeId :=
  match element with
  | none =>
    if s.view = TypeHierarchyView.Class then
      match s.roots.find? (fun r =>
          match s.nodes[r]? with
          | some d => d.item.kind == SymbolKind.Class
          | none => false) with
      | some r =>
        let (s1, root) := getClassViewRoot superFetch fuel s r
        (s1, [root])
      | none => (s, [])
    else (s, s.roots)
  | some id =>
    let (s1, cs) := getTypeChildren fetch s id
    if cs.isEmpty then
      ({ s1 with adapterEvents := s1.adapterEvents ++ [some id] }, cs)
    else (s1, cs)

/-- `vscode.TreeItemCollapsibleState`. -/
inductive CollapsibleState where
  | None
  | Collapsed
  | Expanded
deriving DecidableEq

/-- The collapsible-state computation of `TypeItemDataProvider.getTreeItem`
(lines 195-204).  Expanded for Class-view nodes flagged `expand` and for
roots; leaf for a cached empty child list (`element.children?.length === 0`);
collapsed without resolving when prefetch is off; with prefetch on, resolve
through the adapter, store the result on the node, and report collapsed or
leaf by whether it is non-empty.  (The display sink only passes live nodes;
an unallocated id is unreachable and reported collapsed.) -/
def getTreeItemState (fetch : Fetch) (superFetch : SuperFetch) (fuel : Nat)
    (prefetch : Bool) (s : ModelState) (id : NodeId) : ModelState × CollapsibleState :=
  match s.nodes[id]? with
  | none => (s, CollapsibleState.Collapsed)
  | some nd =>
    if (s.view = TypeHierarchyView.Class ∧ nd.expand = true) ∨ s.roots.contains id then
      (s, CollapsibleState.Expanded)
    else if nd.children = some [] then
      (s, CollapsibleState.None)
    else if prefetch = false then
      (s, CollapsibleState.Collapsed)
    else
      let (s1, cs) := adapterGetChildren fetch superFetch fuel s (some id)
      let s2 := updateNode s1 id fun d => { d with children := some cs }
      (s2, if cs.isEmpty then CollapsibleState.None else CollapsibleState.Collapsed)

/-- The state-changing operations of the model/adapter pair, for statements
quantifying over "every operation". -/
inductive Op where
  | resolve (fetch : Fetch) (id : NodeId)
  | rm (id : NodeId)
  | classRoot (superFetch : SuperFetch) (fuel : Nat) (id : NodeId)
  | treeItem (fetch : Fetch) (superFetch : SuperFetch) (fuel : Nat) (prefetch : Bool) (id : NodeId)
  | childrenOf (fetch : Fetch) (superFetch : SuperFetch) (fuel : Nat) (element : Option NodeId)

/-- Apply one operation to the state. -/
def applyOp : Op → ModelState → ModelState
  | Op.resolve f id, s => (getTypeChildren f s id).1
  | Op.rm id, s => remove s id
  | Op.classRoot sf fuel id, s => (getClassViewRoot sf fuel s id).1
  | Op.treeItem f sf fuel pf id, s => (getTreeItemState f sf fuel pf s id).1
  | Op.childrenOf f sf fuel e, s => (adapterGetChildren f sf fuel s e).1

/-! ### Concrete fixtures used by the verification theorems -/

/-- A fixed range for fixture items. -/
def exRange : Range := { startLine := 0, startChar := 0, stopLine := 0, stopChar := 0 }

/-- Build a fixture item with a given name, kind and uri. -/
def mkItem (n : String) (k : SymbolKind) (u : String) : TypeHierarchyItem :=
  { name := n, kind := k, tags := none, detail := none, uri := u,
    range := exRange, selectionRange := exRange }

/-- Fixture root items R0, R1, R2. -/
def exR0 : TypeHierarchyItem := mkItem "R0" SymbolKind.Class "file:///r0"

/-- Second fixture root. -/
def exR1 : TypeHierarchyItem := mkItem "R1" SymbolKind.Class "file:///r1"

/-- Third fixture root. -/
def exR2 : TypeHierarchyItem := mkItem "R2" SymbolKind.Class "file:///r2"

/-- A model with root sequence [R0, R1, R2] and no children resolved. -/
def exRoots3 : ModelState := mkModel TypeHierarchyView.Supertype [exR0, exR1, exR2]

/-! ### C1 — next/previous sibling movement and wraparound -/

/-- C1: the claim says `next`/`previous` wrap modulo the sibling-array length,
in particular `next(R2) = R0` and `previous(R0) = R2` for roots [R0, R1, R2].
The source (line 144) reads `array[idx + delta + array.length % array.length]`;
`%` binds tighter than `+`, so the offset is `idx + delta` with no wraparound:
the read at either end is `undefined` and `next`/`previous` fall back to
returning `from` itself.  Interior movement works, the boundary wrap does not:
`next(R2) = R2` (not R0) and `previous(R0) = R0` (not R2). -/
theorem C1_no_wraparound_at_ends :
    next exRoots3 0 = 1 ∧ next exRoots3 1 = 2 ∧ next exRoots3 2 = 2
    ∧ previous exRoots3 2 = 1 ∧ previous exRoots3 1 = 0 ∧ previous exRoots3 0 = 0 := by
  decide

/-! ### C4 — editor highlights -/

/-- A one-root model for the highlight query. -/
def exHighState : ModelState := mkModel TypeHierarchyView.Supertype [exR0]

/-- C4: the claim says `getEditorHighlights` returns `[selectionRange]` when
the queried URI matches the node's item URI.  The source (line 149) compares
`vscode.Uri.parse(item.item.uri) === uri`: `===` between objects is reference
equality and `Uri.parse` allocates a fresh object, so the comparison is false
against every pre-existing argument object and the result is always `[]` —
here even though the queried Uri's string value equals the node's item uri
(`"file:///r0"`), the pre-existing query object (identity 7) differs from the
fresh parse (identity 8) and the highlight list is empty. -/
theorem C4_highlights_always_empty :
    (exHighState.nodes[0]?).map (fun nd => nd.item.uri) = some "file:///r0"
    ∧ getEditorHighlights exHighState 0 { value := "file:///r0", objId := 7 } 8 = some []
    ∧ getEditorHighlights exHighState 0 { value := "file:///r0", objId := 7 } 8 ≠
        some [exR0.selectionRange] := by
  decide

/-! ### Helper lemmas about the state operations -/

theorem updateNode_getElem_self (s : ModelState) (id : NodeId) (f : TypeItemData → TypeItemData)
    (d : TypeItemData) (h : s.nodes[id]? = some d) :
    (updateNode s id f).nodes[id]? = some (f d) := by
  have hlt : id < s.nodes.length := (List.getElem?_eq_some_iff.1 h).1
  unfold updateNode
  simp only [h]
  exact List.getElem?_set_self (by simpa using hlt)

theorem updateNode_getElem_ne (s : ModelState) (id : NodeId) (f : TypeItemData → TypeItemData)
    (j : NodeId) (hne : id ≠ j) :
    (updateNode s id f).nodes[j]? = s.nodes[j]? := by
  unfold updateNode
  cases h : s.nodes[id]? <;> simp [List.getElem?_set_ne hne]

theorem updateNode_eq (t : ModelState) (id : NodeId) (f : TypeItemData → TypeItemData)
    (d : TypeItemData) (h : t.nodes[id]? = some d) :
    updateNode t id f = { t with nodes := t.nodes.set id (f d) } := by
  unfold updateNode
  simp only [h]

theorem resolveTypes_shape (fetch : Fetch) (s : ModelState) (id : NodeId) :
    ∃ (qs : List TypeHierarchyItem) (ns : List TypeItemData),
      (resolveTypes fetch s id).1 = { s with queries := s.queries ++ qs, nodes := s.nodes ++ ns } := by
  unfold resolveTypes
  cases h : s.nodes[id]? with
  | none => exact ⟨[], [], by simp⟩
  | some nd =>
    cases hf : fetch nd.item (queryDirection s.view) with
    | none => exact ⟨[nd.item], [], by simp [hf]⟩
    | some types =>
      refine ⟨[nd.item], (sortCmp compareItems types).map fun it =>
        { item := it, parent := some id, children := none, expand := false }, by simp [hf]⟩

theorem resolveTypes_nodes_getElem (fetch : Fetch) (s : ModelState) (id j : NodeId)
    (hj : j < s.nodes.length) :
    (resolveTypes fetch s id).1.nodes[j]? = s.nodes[j]? := by
  obtain ⟨qs, ns, hshape⟩ := resolveTypes_shape fetch s id
  rw [hshape]
  exact List.getElem?_append_left hj

theorem getTypeChildren_cached (fetch : Fetch) (s : ModelState) (id : NodeId)
    (nd : TypeItemData) (cs : List NodeId)
    (h : s.nodes[id]? = some nd) (hc : nd.children = some cs) :
    getTypeChildren fetch s id = (s, cs) := by
  unfold getTypeChildren
  simp only [h, hc]

theorem getTypeChildren_fresh (fetch : Fetch) (s : ModelState) (id : NodeId)
    (nd : TypeItemData) (h : s.nodes[id]? = some nd) (hc : nd.children = none) :
    getTypeChildren fetch s id =
      (updateNode (resolveTypes fetch s id).1 id
        (fun d => { d with children := some (resolveTypes fetch s id).2 }),
       (resolveTypes fetch s id).2) := by
  unfold getTypeChildren
  simp only [h, hc]

theorem getTypeChildren_shape (fetch : Fetch) (s : ModelState) (id : NodeId) :
    ∃ (qs : List TypeHierarchyItem) (ns : List TypeItemData),
      (getTypeChildren fetch s id).1 = { s with queries := s.queries ++ qs, nodes := ns } := by
  cases h : s.nodes[id]? with
  | none =>
    refine ⟨[], s.nodes, ?_⟩
    unfold getTypeChildren
    simp [h]
  | some nd =>
    cases hc : nd.children with
    | some cs =>
      refine ⟨[], s.nodes, ?_⟩
      rw [getTypeChildren_cached fetch s id nd cs h hc]
      simp
    | none =>
      obtain ⟨qs, ns, hshape⟩ := resolveTypes_shape fetch s id
      have hlt : id < s.nodes.length := (List.getElem?_eq_some_iff.1 h).1
      have hpres : (resolveTypes fetch s id).1.nodes[id]? = some nd := by
        rw [resolveTypes_nodes_getElem fetch s id id hlt]; exact h
      refine ⟨qs, (s.nodes ++ ns).set id
        { nd with children := some (resolveTypes fetch s id).2 }, ?_⟩
      rw [getTypeChildren_fresh fetch s id nd h hc,
        updateNode_eq (resolveTypes fetch s id).1 id _ nd hpres, hshape]

/-! ### C7 — idempotent child resolution -/

/-- C7: `getTypeChildren` is idempotent.  A node whose `children` field is
set returns the cached sequence with the state — queries, events, nodes —
completely unchanged (no re-fetch); and re-running `getTypeChildren` on the
state produced by a first run returns the identical pair again. -/
theorem C7_resolveChildren_idempotent :
    (∀ (fetch : Fetch) (s : ModelState) (id : NodeId) (nd : TypeItemData) (cs : List NodeId),
        s.nodes[id]? = some nd → nd.children = some cs →
        getTypeChildren fetch s id = (s, cs))
    ∧ ∀ (fetch : Fetch) (s : ModelState) (id : NodeId),
        getTypeChildren fetch (getTypeChildren fetch s id).1 id = getTypeChildren fetch s id := by
  refine ⟨getTypeChildren_cached, ?_⟩
  intro fetch s id
  cases h : s.nodes[id]? with
  | none =>
    have h1 : getTypeChildren fetch s id = (s, []) := by
      unfold getTypeChildren; simp [h]
    rw [h1]
    exact h1
  | some nd =>
    cases hc : nd.children with
    | some cs =>
      rw [getTypeChildren_cached fetch s id nd cs h hc]
      exact getTypeChildren_cached fetch s id nd cs h hc
    | none =>
      rw [getTypeChildren_fresh fetch s id nd h hc]
      have hlt : id < s.nodes.length := (List.getElem?_eq_some_iff.1 h).1
      have hpres : (resolveTypes fetch s id).1.nodes[id]? = some nd := by
        rw [resolveTypes_nodes_getElem fetch s id id hlt]; exact h
      exact getTypeChildren_cached _ _ _ _ _
        (updateNode_getElem_self (resolveTypes fetch s id).1 id _ nd hpres) rfl

/-- A subtype fetch for the witness: R0 has the single subtype R1. -/
def exFetch1 : Fetch := fun it _ => if it.name = "R0" then some [exR1] else some []

/-- One-root model for the witness. -/
def exSub0 : ModelState := mkModel TypeHierarchyView.Subtype [exR0]

/-- The state after resolving root 0's children: node 1 (R1) cached under 0. -/
def exSub1 : ModelState := (getTypeChildren exFetch1 exSub0 0).1

/-- Witness for C7 at a concrete cached node. -/
theorem C7_witness :
    getTypeChildren exFetch1 exSub1 0 = (exSub1, [1]) :=
  C7_resolveChildren_idempotent.1 exFetch1 exSub1 0
    { item := exR0, parent := none, children := some [1], expand := false } [1]
    (by decide) (by decide)

/-! ### C8 — absent fetch results degrade to a cached empty child list -/

/-- C8: when the child query for an unresolved node yields no result (the
`!types` test in `_resolveTypes` — the shape in which failures and
cancellations surface through the command's `TypeHierarchyItem[] | undefined`
result), `getTypeChildren` returns the empty sequence, not an error, and
caches `children = []` on the node (resolved-empty, never `undefined`); the
only other state change is the recorded query. -/
theorem C8_absent_result_cached_empty :
    ∀ (fetch : Fetch) (s : ModelState) (id : NodeId) (nd : TypeItemData),
      s.nodes[id]? = some nd → nd.children = none →
      fetch nd.item (queryDirection s.view) = none →
      getTypeChildren fetch s id =
        ({ s with queries := s.queries ++ [nd.item],
                  nodes := s.nodes.set id { nd with children := some [] } }, []) := by
  intro fetch s id nd h hc hf
  have hres : resolveTypes fetch s id = ({ s with queries := s.queries ++ [nd.item] }, []) := by
    unfold resolveTypes
    simp only [h, hf]
  rw [getTypeChildren_fresh fetch s id nd h hc, hres]
  unfold updateNode
  simp only [h]

/-- A fetch with no results, for the C8 witness. -/
def exFetchNone : Fetch := fun _ _ => none

/-- Witness for C8 at the one-root model with an absent fetch result. -/
theorem C8_witness :
    getTypeChildren exFetchNone exSub0 0 =
      ({ exSub0 with queries := exSub0.queries ++ [exR0],
                     nodes := exSub0.nodes.set 0
                       { item := exR0, parent := none, children := some [], expand := false } }, []) :=
  C8_absent_result_cached_empty exFetchNone exSub0 0
    { item := exR0, parent := none, children := none, expand := false }
    (by decide) (by decide) (by decide)

/-! ### C9 — resolved-empty vs never-queried display states -/

/-- C9: for a non-root node not flagged `expand`, a cached empty child list
displays as a leaf (`None`), in any prefetch mode; an unresolved child list
with prefetch disabled displays as `Collapsed` with the state — hence the
query log — completely unchanged (no resolution is triggered); and the two
display states are distinct. -/
theorem C9_leaf_vs_collapsed :
    ∀ (fetch : Fetch) (superFetch : SuperFetch) (fuel : Nat) (s : ModelState) (id : NodeId)
      (nd : TypeItemData),
      s.nodes[id]? = some nd → s.roots.contains id = false → nd.expand = false →
      (nd.children = some [] → ∀ prefetch,
        getTreeItemState fetch superFetch fuel prefetch s id = (s, CollapsibleState.None))
      ∧ (nd.children = none →
        getTreeItemState fetch superFetch fuel false s id = (s, CollapsibleState.Collapsed))
      ∧ CollapsibleState.None ≠ CollapsibleState.Collapsed := by
  intro fetch superFetch fuel s id nd h hroot hexp
  have hfirst : ¬ ((s.view = TypeHierarchyView.Class ∧ nd.expand = true) ∨
      s.roots.contains id = true) := by
    rintro (⟨-, h2⟩ | h3)
    · rw [hexp] at h2; cases h2
    · rw [hroot] at h3; cases h3
  refine ⟨?_, ?_, by decide⟩
  · intro hc prefetch
    unfold getTreeItemState
    simp only [h]
    rw [if_neg hfirst, if_pos hc]
  · intro hc
    unfold getTreeItemState
    simp only [h]
    rw [if_neg hfirst, if_neg (by simp [hc])]
    simp

/-- A supertype fetch with no results, for witnesses that never follow it. -/
def exSuperNone : SuperFetch := fun _ => none

/-- The state after additionally resolving node 1 (R1 has no subtypes):
node 1's children are cached as the empty list. -/
def exSub2 : ModelState := (getTypeChildren exFetch1 exSub1 1).1

/-- Witness for C9: in `exSub1`, node 1 is unresolved — collapsed with no
state change; in `exSub2`, node 1 is resolved-empty — a leaf. -/
theorem C9_witness :
    getTreeItemState exFetch1 exSuperNone 1 false exSub1 1 = (exSub1, CollapsibleState.Collapsed)
    ∧ getTreeItemState exFetch1 exSuperNone 1 false exSub2 1 = (exSub2, CollapsibleState.None) := by
  constructor
  · exact (C9_leaf_vs_collapsed exFetch1 exSuperNone 1 exSub1 1
      { item := exR1, parent := some 0, children := none, expand := false }
      (by decide) (by decide) (by decide)).2.1 (by decide)
  · exact (C9_leaf_vs_collapsed exFetch1 exSuperNone 1 exSub2 1
      { item := exR1, parent := some 0, children := some [], expand := false }
      (by decide) (by decide) (by decide)).1 (by decide) false

/-! ### Event-log preservation lemmas -/

theorem getTypeChildren_events (fetch : Fetch) (s : ModelState) (id : NodeId) :
    (getTypeChildren fetch s id).1.events = s.events
    ∧ (getTypeChildren fetch s id).1.adapterEvents = s.adapterEvents := by
  cases h : s.nodes[id]? with
  | none =>
    unfold getTypeChildren; simp [h]
  | some nd =>
    cases hc : nd.children with
    | some cs => rw [getTypeChildren_cached fetch s id nd cs h hc]; exact ⟨rfl, rfl⟩
    | none =>
      rw [getTypeChildren_fresh fetch s id nd h hc]
      obtain ⟨qs, ns, hshape⟩ := resolveTypes_shape fetch s id
      constructor
      · show (resolveTypes fetch s id).1.events = s.events
        rw [hshape]
      · show (resolveTypes fetch s id).1.adapterEvents = s.adapterEvents
        rw [hshape]

theorem getClassViewRoot_events (sf : SuperFetch) :
    ∀ (fuel : Nat) (s : ModelState) (id : NodeId),
      (getClassViewRoot sf fuel s id).1.events = s.events
      ∧ (getClassViewRoot sf fuel s id).1.adapterEvents = s.adapterEvents := by
  intro fuel
  induction fuel with
  | zero => intro s id; exact ⟨rfl, rfl⟩
  | succ n ih =>
    intro s id
    unfold getClassViewRoot
    cases h : s.nodes[id]? with
    | none => exact ⟨rfl, rfl⟩
    | some nd =>
      simp only
      cases hf : sf nd.item with
      | none => exact ⟨rfl, rfl⟩
      | some ts =>
        simp only
        cases ts with
        | nil => exact ⟨rfl, rfl⟩
        | cons t ts' =>
          simp only [List.isEmpty_cons]
          cases hff : findFirstClass (t :: ts') with
          | none => exact ⟨rfl, rfl⟩
          | some sup =>
            simp only
            exact ⟨(ih _ _).1, (ih _ _).2⟩

theorem adapterGetChildren_events (f : Fetch) (sf : SuperFetch) (fuel : Nat)
    (s : ModelState) (e : Option NodeId) :
    (adapterGetChildren f sf fuel s e).1.events = s.events := by
  cases e with
  | none =>
    unfold adapterGetChildren
    by_cases hv : s.view = TypeHierarchyView.Class
    · simp only [hv, if_pos rfl]
      cases hfind : s.roots.find? (fun r =>
          match s.nodes[r]? with
          | some d => d.item.kind == SymbolKind.Class
          | none => false) with
      | none => rfl
      | some r => exact (getClassViewRoot_events sf fuel s r).1
    · rw [if_neg hv]
  | some id =>
    unfold adapterGetChildren
    cases hcs : (getTypeChildren f s id).2.isEmpty <;>
      simp only [hcs, Bool.false_eq_true, if_neg, if_pos] <;>
      exact (getTypeChildren_events f s id).1

theorem getTreeItemState_events (f : Fetch) (sf : SuperFetch) (fuel : Nat) (pf : Bool)
    (s : ModelState) (id : NodeId) :
    (getTreeItemState f sf fuel pf s id).1.events = s.events := by
  unfold getTreeItemState
  cases h : s.nodes[id]? with
  | none => rfl
  | some nd =>
    simp only
    by_cases h1 : (s.view = TypeHierarchyView.Class ∧ nd.expand = true) ∨ s.roots.contains id = true
    · rw [if_pos h1]
    · rw [if_neg h1]
      by_cases h2 : nd.children = some []
      · rw [if_pos h2]
      · rw [if_neg h2]
        by_cases h3 : pf = false
        · rw [if_pos h3]
        · rw [if_neg h3]
          exact adapterGetChildren_events f sf fuel s (some id)

theorem remove_events (s : ModelState) (id : NodeId) :
    ((remove s id).events = s.events ∧ (remove s id).adapterEvents = s.adapterEvents)
    ∨ ((remove s id).events = s.events ++ [ModelEvent.model]
       ∧ (remove s id).adapterEvents = s.adapterEvents ++ [adapterListener ModelEvent.model]) := by
  unfold remove
  by_cases hr : s.roots.contains id = true
  · rw [if_pos hr]; right; exact ⟨rfl, rfl⟩
  · rw [if_neg hr]
    cases hp : (s.nodes[id]?).bind (fun nd => nd.parent) with
    | none => left; exact ⟨rfl, rfl⟩
    | some p =>
      cases hc : (s.nodes[p]?).bind (fun pd => pd.children) with
      | none => left; simp [hc]
      | some sib => right; simp only [hc]; exact ⟨rfl, rfl⟩

/-! ### C10 — every model-fired event carries the model, forwarded as a full refresh -/

/-- C10: across every operation, the model's change-event log only ever grows
by the single payload `ModelEvent.model` (the `fire(this)` in `remove` is the
sole firing site); the adapter's subscription maps that payload to `none`
(`undefined`), i.e. a full-tree refresh, so its `instanceof TypeItem` branch
never fires for a model-originated event; and each model firing appends
exactly the listener's image to the provider's emitter log. -/
theorem C10_model_events_forward_full_refresh :
    (∀ (op : Op) (s : ModelState),
      (applyOp op s).events = s.events
      ∨ (applyOp op s).events = s.events ++ [ModelEvent.model])
    ∧ adapterListener ModelEvent.model = none
    ∧ (∀ (s : ModelState) (e : ModelEvent),
        (fireModelEvent s e).adapterEvents = s.adapterEvents ++ [adapterListener e])
    ∧ ∀ (s : ModelState) (id : NodeId),
        (remove s id).adapterEvents = s.adapterEvents
        ∨ (remove s id).adapterEvents = s.adapterEvents ++ [Option.none] := by
  refine ⟨?_, rfl, fun s e => rfl, ?_⟩
  · intro op s
    cases op with
    | resolve f id => exact Or.inl (getTypeChildren_events f s id).1
    | rm id =>
      rcases remove_events s id with ⟨h1, -⟩ | ⟨h1, -⟩
      · exact Or.inl h1
      · exact Or.inr h1
    | classRoot sf fuel id => exact Or.inl (getClassViewRoot_events sf fuel s id).1
    | treeItem f sf fuel pf id => exact Or.inl (getTreeItemState_events f sf fuel pf s id)
    | childrenOf f sf fuel e => exact Or.inl (adapterGetChildren_events f sf fuel s e)
  · intro s id
    rcases remove_events s id with ⟨-, h2⟩ | ⟨-, h2⟩
    · exact Or.inl h2
    · exact Or.inr h2

/-! ### C2 — class-view root materialization -/

theorem classViewRoot_halt (sf : SuperFetch) (fuel : Nat) (s : ModelState) (id : NodeId)
    (nd : TypeItemData) (h : s.nodes[id]? = some nd)
    (hn : findFirstClass ((sf nd.item).getD []) = none) :
    getClassViewRoot sf (fuel + 1) s id =
      ({ updateNode s id (fun d => { d with expand := true }) with
         queries := s.queries ++ [nd.item] }, id) := by
  unfold getClassViewRoot
  simp only [h]
  cases hf : sf nd.item with
  | none => rfl
  | some ts =>
    cases ts with
    | nil => rfl
    | cons t ts' =>
      rw [hf] at hn
      simp only [Option.getD_some] at hn
      simp only [List.isEmpty_cons, hn]
      rfl

theorem classViewRoot_link (sf : SuperFetch) (fuel : Nat) (s : ModelState) (id : NodeId)
    (nd : TypeItemData) (sup : TypeHierarchyItem) (h : s.nodes[id]? = some nd)
    (hs : findFirstClass ((sf nd.item).getD []) = some sup) :
    getClassViewRoot sf (fuel + 1) s id =
      getClassViewRoot sf fuel
        (classLink { updateNode s id (fun d => { d with expand := true }) with
                     queries := s.queries ++ [nd.item] } id sup).1
        (classLink { updateNode s id (fun d => { d with expand := true }) with
                     queries := s.queries ++ [nd.item] } id sup).2 := by
  rw [getClassViewRoot]
  simp only [h]
  cases hf : sf nd.item with
  | none => rw [hf] at hs; simp [findFirstClass] at hs
  | some ts =>
    cases ts with
    | nil => rw [hf] at hs; simp [findFirstClass] at hs
    | cons t ts' =>
      rw [hf] at hs
      simp only [Option.getD_some] at hs
      simp only [List.isEmpty_cons, hs]
      rw [if_neg (show ¬ (false = true) by decide)]
      rfl

/-- Class-kind fixture X, the node the hierarchy is anchored on. -/
def itX : TypeHierarchyItem := mkItem "X" SymbolKind.Class "file:///x"

/-- Interface-kind fixture I, to be skipped by the class chain. -/
def itI : TypeHierarchyItem := mkItem "I" SymbolKind.Interface "file:///i"

/-- Class-kind fixture Y, the supertype the chain follows. -/
def itY : TypeHierarchyItem := mkItem "Y" SymbolKind.Class "file:///y"

/-- Supertype oracle: X has supertypes [I, Y] in that order; Y has none. -/
def sfXY : SuperFetch := fun it =>
  if it.name = "X" then some [itI, itY]
  else if it.name = "Y" then some [] else none

/-- A Class-view model rooted at X alone. -/
def exClass0 : ModelState := mkModel TypeHierarchyView.Class [itX]

/-- A Class-view model rooted at Y alone (whose supertype query is empty). -/
def exClassY : ModelState := mkModel TypeHierarchyView.Class [itY]

/-- C2: class-view root materialization.  General part: when the supertype
result (absent treated as empty) holds no class-kind item, the current node
is returned as the chain's top (with its `expand` flag set and the query
recorded); when its first class-kind item is `sup`, a fresh parentless node
for `sup` is allocated, the current node is linked as its sole cached child,
and the procedure recurses from the new node.  Concrete part: for class node
X with supertypes [I, Y], the scan skips interface I and picks Y; the run
yields new root Y (id 1) with sole child X, `expand = true` on both, X's
parent reassigned to Y, and the recursion from Y halts — the result is the
same at every fuel bound ≥ 2, i.e. the recursion terminates at Y. -/
theorem C2_class_view_materialization :
    (∀ (sf : SuperFetch) (fuel : Nat) (s : ModelState) (id : NodeId) (nd : TypeItemData),
      s.nodes[id]? = some nd →
      (findFirstClass ((sf nd.item).getD []) = none →
        getClassViewRoot sf (fuel + 1) s id =
          ({ updateNode s id (fun d => { d with expand := true }) with
             queries := s.queries ++ [nd.item] }, id))
      ∧ ∀ (sup : TypeHierarchyItem), findFirstClass ((sf nd.item).getD []) = some sup →
        getClassViewRoot sf (fuel + 1) s id =
          getClassViewRoot sf fuel
            (classLink { updateNode s id (fun d => { d with expand := true }) with
                         queries := s.queries ++ [nd.item] } id sup).1
            (classLink { updateNode s id (fun d => { d with expand := true }) with
                         queries := s.queries ++ [nd.item] } id sup).2)
    ∧ findFirstClass [itI, itY] = some itY
    ∧ (getClassViewRoot sfXY 2 exClass0 0).2 = 1
    ∧ (getClassViewRoot sfXY 2 exClass0 0).1.nodes[1]? =
        some { item := itY, parent := none, children := some [0], expand := true }
    ∧ (getClassViewRoot sfXY 2 exClass0 0).1.nodes[0]? =
        some { item := itX, parent := some 1, children := none, expand := true }
    ∧ ∀ (extra : Nat),
        getClassViewRoot sfXY (extra + 2) exClass0 0 = getClassViewRoot sfXY 2 exClass0 0 := by
  refine ⟨?_, by decide, by decide, by decide, by decide, ?_⟩
  · intro sf fuel s id nd h
    exact ⟨classViewRoot_halt sf fuel s id nd h,
      fun sup hs => classViewRoot_link sf fuel s id nd sup h hs⟩
  · intro extra
    rfl

/-- Witness for C2, applying the general part at concrete inputs: the halting
case on the Y-rooted model (empty supertype result), and the linking case on
the X-rooted model (first class-kind supertype is Y). -/
theorem C2_witness :
    getClassViewRoot sfXY 1 exClassY 0 =
      ({ updateNode exClassY 0 (fun d => { d with expand := true }) with
         queries := exClassY.queries ++ [itY] }, 0)
    ∧ getClassViewRoot sfXY 1 exClass0 0 =
        getClassViewRoot sfXY 0
          (classLink { updateNode exClass0 0 (fun d => { d with expand := true }) with
                       queries := exClass0.queries ++ [itX] } 0 itY).1
          (classLink { updateNode exClass0 0 (fun d => { d with expand := true }) with
                       queries := exClass0.queries ++ [itX] } 0 itY).2 :=
  ⟨(C2_class_view_materialization.1 sfXY 0 exClassY 0
      { item := itY, parent := none, children := none, expand := false } (by decide)).1 (by decide),
   (C2_class_view_materialization.1 sfXY 0 exClass0 0
      { item := itX, parent := none, children := none, expand := false } (by decide)).2 itY (by decide)⟩

/-! ### C3 — the parent-link invariant -/

/-- Whether root `id` is a live node whose `parent` is unset. -/
def rootParentIsNone (s : ModelState) (id : NodeId) : Bool :=
  match s.nodes[id]? with
  | some d => d.parent.isNone
  | none => false

/-- Every id in the root sequence is a live node with `parent = undefined`. -/
def rootsParentNone (s : ModelState) : Prop :=
  ∀ id ∈ s.roots, rootParentIsNone s id = true

theorem resolveTypes_some (fetch : Fetch) (s : ModelState) (id : NodeId)
    (nd : TypeItemData) (ts : List TypeHierarchyItem)
    (h : s.nodes[id]? = some nd) (hf : fetch nd.item (queryDirection s.view) = some ts) :
    resolveTypes fetch s id =
      ({ s with queries := s.queries ++ [nd.item],
                nodes := s.nodes ++ (sortCmp compareItems ts).map fun it =>
                  { item := it, parent := some id, children := none, expand := false } },
       (List.range (sortCmp compareItems ts).length).map (· + s.nodes.length)) := by
  unfold resolveTypes
  simp only [h, hf]

theorem resolveTypes_child_parent (fetch : Fetch) (s : ModelState) (id : NodeId)
    (nd : TypeItemData) (ts : List TypeHierarchyItem)
    (h : s.nodes[id]? = some nd) (hf : fetch nd.item (queryDirection s.view) = some ts) :
    ∀ c ∈ (resolveTypes fetch s id).2,
      (((resolveTypes fetch s id).1.nodes[c]?).map fun d => d.parent) = some (some id) := by
  intro c hc
  rw [resolveTypes_some fetch s id nd ts h hf] at hc ⊢
  simp only [List.mem_map, List.mem_range] at hc
  obtain ⟨k, hk, rfl⟩ := hc
  rw [List.getElem?_append_right (by omega)]
  have hkk : k + s.nodes.length - s.nodes.length = k := by omega
  rw [hkk, List.getElem?_map]
  have hk2 : (sortCmp compareItems ts)[k]? = some ((sortCmp compareItems ts).get ⟨k, hk⟩) := by
    simp [hk]
  rw [hk2]
  rfl

theorem getTypeChildren_parent_pres (fetch : Fetch) (s : ModelState) (id j : NodeId) :
    s.nodes[j]? = none ∨
    (((getTypeChildren fetch s id).1.nodes[j]?).map fun d => d.parent)
      = ((s.nodes[j]?).map fun d => d.parent) := by
  cases hj : s.nodes[j]? with
  | none => exact Or.inl rfl
  | some dj =>
    right
    cases h : s.nodes[id]? with
    | none =>
      unfold getTypeChildren
      simp only [h, hj]
    | some nd =>
      cases hc : nd.children with
      | some cs => rw [getTypeChildren_cached fetch s id nd cs h hc, hj]
      | none =>
        rw [getTypeChildren_fresh fetch s id nd h hc]
        have hjlt : j < s.nodes.length := (List.getElem?_eq_some_iff.1 hj).1
        have hpres : (resolveTypes fetch s id).1.nodes[j]? = some dj := by
          rw [resolveTypes_nodes_getElem fetch s id j hjlt]; exact hj
        by_cases hij : id = j
        · subst hij
          rw [updateNode_getElem_self _ id _ dj hpres]
          rfl
        · rw [updateNode_getElem_ne _ id _ j hij, hpres]

theorem remove_parent_pres (s : ModelState) (id j : NodeId) :
    s.nodes[j]? = none ∨
    (((remove s id).nodes[j]?).map fun d => d.parent) = ((s.nodes[j]?).map fun d => d.parent) := by
  cases hj : s.nodes[j]? with
  | none => exact Or.inl rfl
  | some dj =>
    right
    unfold remove
    by_cases hr : s.roots.contains id = true
    · rw [if_pos hr]
      show (Option.map (fun d => d.parent) s.nodes[j]?) = Option.map (fun d => d.parent) (some dj)
      rw [hj]
    · rw [if_neg hr]
      cases hp : (s.nodes[id]?).bind (fun nd => nd.parent) with
      | none => simp only [hp]; rw [hj]
      | some p =>
        simp only [hp]
        cases hc : (s.nodes[p]?).bind (fun pd => pd.children) with
        | none => simp only [hc]; rw [hj]
        | some sib =>
          simp only [hc]
          cases hpd : s.nodes[p]? with
          | none => rw [hpd] at hc; cases hc
          | some pd =>
            by_cases hpj : p = j
            · subst hpj
              rw [show (fireModelEvent (updateNode s p fun d =>
                    { d with children := some (del sib id) }) ModelEvent.model).nodes
                  = (updateNode s p fun d =>
                    { d with children := some (del sib id) }).nodes from rfl]
              rw [updateNode_getElem_self s p _ pd hpd]
              rw [hpd] at hj
              cases hj
              rfl
            · rw [show (fireModelEvent (updateNode s p fun d =>
                    { d with children := some (del sib id) }) ModelEvent.model).nodes
                  = (updateNode s p fun d =>
                    { d with children := some (del sib id) }).nodes from rfl]
              rw [updateNode_getElem_ne s p _ j hpj, hj]

/-- Elements of `del l x` come from `l`. -/
theorem mem_of_mem_del (l : List NodeId) (x y : NodeId) (h : y ∈ del l x) : y ∈ l := by
  induction l with
  | nil => cases h
  | cons z zs ih =>
    unfold del at h
    by_cases hz : z = x
    · rw [if_pos hz] at h
      exact List.mem_cons_of_mem z h
    · rw [if_neg hz] at h
      rcases List.mem_cons.1 h with h1 | h1
      · exact h1 ▸ List.mem_cons_self z zs
      · exact List.mem_cons_of_mem z (ih h1)

theorem rootParentIsNone_of_pres (s t : ModelState) (r : NodeId)
    (hpar : s.nodes[r]? = none ∨
      ((t.nodes[r]?).map fun d => d.parent) = ((s.nodes[r]?).map fun d => d.parent))
    (h1 : rootParentIsNone s r = true) : rootParentIsNone t r = true := by
  unfold rootParentIsNone at h1 ⊢
  cases hs : s.nodes[r]? with
  | none => rw [hs] at h1; cases h1
  | some d =>
    rw [hs] at h1 hpar
    rcases hpar with hdead | hmap
    · cases hdead
    · cases ht : t.nodes[r]? with
      | none => rw [ht] at hmap; cases hmap
      | some d' =>
        rw [ht] at hmap
        have hpp : d'.parent = d.parent := by simpa using hmap
        show d'.parent.isNone = true
        rw [hpp]
        exact h1

/-- C3 (amended): the `TypesModel` operations do respect the invariant.
Model construction yields roots with `parent = undefined`; `getTypeChildren`
and `remove` never change any existing node's `parent` field; both preserve
"every root has `parent = undefined`"; and nodes created by a fresh child
resolution carry `parent = the resolved node` from construction.  (The
adapter's class-view root materialization violates the claim as stated — see
`C3_counterexample`: it reassigns the anchored root's parent to the newly
synthesized supertype node while the node stays in the root sequence.) -/
theorem C3_parent_invariant_of_model_ops :
    (∀ (view : TypeHierarchyView) (items : List TypeHierarchyItem),
      rootsParentNone (mkModel view items))
    ∧ (∀ (fetch : Fetch) (s : ModelState) (id j : NodeId),
        s.nodes[j]? = none ∨
        (((getTypeChildren fetch s id).1.nodes[j]?).map fun d => d.parent)
          = ((s.nodes[j]?).map fun d => d.parent))
    ∧ (∀ (s : ModelState) (id j : NodeId),
        s.nodes[j]? = none ∨
        (((remove s id).nodes[j]?).map fun d => d.parent)
          = ((s.nodes[j]?).map fun d => d.parent))
    ∧ (∀ (fetch : Fetch) (s : ModelState) (id : NodeId),
        rootsParentNone s → rootsParentNone (getTypeChildren fetch s id).1)
    ∧ (∀ (s : ModelState) (id : NodeId),
        rootsParentNone s → rootsParentNone (remove s id))
    ∧ (∀ (fetch : Fetch) (s : ModelState) (id : NodeId) (nd : TypeItemData)
         (ts : List TypeHierarchyItem),
        s.nodes[id]? = some nd → nd.children = none →
        fetch nd.item (queryDirection s.view) = some ts →
        ∀ c ∈ (getTypeChildren fetch s id).2,
          (((getTypeChildren fetch s id).1.nodes[c]?).map fun d => d.parent)
            = some (some id)) := by
  refine ⟨?_, getTypeChildren_parent_pres, remove_parent_pres, ?_, ?_, ?_⟩
  · intro view items r hr
    have hr' : r < items.length := by simpa [mkModel] using hr
    have hsome : (mkModel view items).nodes[r]? =
        some { item := items.get ⟨r, hr'⟩, parent := none, children := none, expand := false } := by
      unfold mkModel
      rw [List.getElem?_map, List.getElem?_eq_getElem hr']
      rfl
    unfold rootParentIsNone
    rw [hsome]
    exact rfl
  · intro fetch s id hr r hmem
    obtain ⟨qs, ns, hshape⟩ := getTypeChildren_shape fetch s id
    have hroots : (getTypeChildren fetch s id).1.roots = s.roots := by rw [hshape]
    rw [hroots] at hmem
    exact rootParentIsNone_of_pres s _ r (getTypeChildren_parent_pres fetch s id r) (hr r hmem)
  · intro s id hr r hmem
    have hmem' : r ∈ s.roots := by
      unfold remove at hmem
      by_cases hroot : s.roots.contains id = true
      · rw [if_pos hroot] at hmem
        exact mem_of_mem_del s.roots id r hmem
      · rw [if_neg hroot] at hmem
        cases hp : (s.nodes[id]?).bind (fun nd => nd.parent) with
        | none => rw [hp] at hmem; exact hmem
        | some p =>
          rw [hp] at hmem
          cases hc : (s.nodes[p]?).bind (fun pd => pd.children) with
          | none => simp only [hc] at hmem; exact hmem
          | some sib => simp only [hc] at hmem; exact hmem
    exact rootParentIsNone_of_pres s _ r (remove_parent_pres s id r) (hr r hmem')
  · intro fetch s id nd ts h hc hf c hcmem
    rw [getTypeChildren_fresh fetch s id nd h hc] at hcmem ⊢
    have hpar := resolveTypes_child_parent fetch s id nd ts h hf c hcmem
    have hcid : id ≠ c := by
      intro hh
      rw [resolveTypes_some fetch s id nd ts h hf] at hcmem
      simp only [List.mem_map, List.mem_range] at hcmem
      obtain ⟨k, hk, hkc⟩ := hcmem
      have hlt : id < s.nodes.length := (List.getElem?_eq_some_iff.1 h).1
      rw [← hh] at hkc
      have hge : s.nodes.length ≤ id := hkc ▸ Nat.le_add_left s.nodes.length k
      exact absurd hlt (not_lt.2 hge)
    rw [updateNode_getElem_ne _ id _ c hcid]
    exact hpar

/-- Counterexample for C3 as stated: the class-view materialization — one of
the operations the claim covers — changes node 0's `parent` from `undefined`
(its construction value) to the synthesized node 1, while node 0 remains in
the model's root sequence. -/
theorem C3_counterexample :
    exClass0.roots = [0]
    ∧ ((exClass0.nodes[0]?).map fun d => d.parent) = some none
    ∧ (getClassViewRoot sfXY 2 exClass0 0).1.roots = [0]
    ∧ (((getClassViewRoot sfXY 2 exClass0 0).1.nodes[0]?).map fun d => d.parent)
        = some (some 1) := by
  decide

/-- Witness for C3 at concrete inputs: the invariant holds on the fixture
model, is preserved by a child resolution, and the fresh child node 1 carries
`parent = 0`. -/
theorem C3_witness :
    rootsParentNone (getTypeChildren exFetch1 exSub0 0).1
    ∧ (((getTypeChildren exFetch1 exSub0 0).1.nodes[1]?).map fun d => d.parent)
        = some (some 0) :=
  ⟨C3_parent_invariant_of_model_ops.2.2.2.1 exFetch1 exSub0 0
     (by unfold rootsParentNone; decide),
   C3_parent_invariant_of_model_ops.2.2.2.2.2 exFetch1 exSub0 0
     { item := exR0, parent := none, children := none, expand := false } [exR1]
     (by decide) (by decide) (by decide) 1 (by decide)⟩

/-! ### C5 — removal semantics -/

/-- Deleting a present element shrinks the list by one. -/
theorem del_length (l : List NodeId) (x : NodeId) (h : x ∈ l) :
    (del l x).length + 1 = l.length := by
  induction l with
  | nil => cases h
  | cons y ys ih =>
    unfold del
    by_cases hy : y = x
    · rw [if_pos hy]
      rfl
    · rw [if_neg hy]
      have hx : x ∈ ys := by
        rcases List.mem_cons.1 h with h1 | h1
        · exact absurd h1.symm hy
        · exact h1
      simp only [List.length_cons]
      rw [← ih hx]

/-- Deleting an absent element is the identity. -/
theorem del_not_mem (l : List NodeId) (x : NodeId) (h : x ∉ l) : del l x = l := by
  induction l with
  | nil => rfl
  | cons y ys ih =>
    unfold del
    rw [if_neg (fun hy => h (List.mem_cons.2 (Or.inl hy.symm))),
      ih (fun hx => h (List.mem_cons_of_mem y hx))]

theorem remove_root_case (s : ModelState) (id : NodeId) (hr : s.roots.contains id = true) :
    remove s id = fireModelEvent { s with roots := del s.roots id } ModelEvent.model := by
  unfold remove
  rw [if_pos hr]

theorem remove_sibling_case (s : ModelState) (id p : NodeId) (pd : TypeItemData)
    (sib : List NodeId) (hr : s.roots.contains id = false)
    (hp : ((s.nodes[id]?).bind fun nd => nd.parent) = some p)
    (hpd : s.nodes[p]? = some pd) (hc : pd.children = some sib) :
    remove s id =
      fireModelEvent
        { s with nodes := s.nodes.set p { pd with children := some (del sib id) } }
        ModelEvent.model := by
  unfold remove
  rw [if_neg (by rw [hr]; exact fun hh => Bool.noConfusion hh)]
  have hcc : ((s.nodes[p]?).bind fun pd => pd.children) = some sib := by
    rw [hpd]
    exact hc
  simp only [hp, hcc]
  rw [updateNode_eq s p _ pd hpd]

theorem remove_noop_case (s : ModelState) (id : NodeId) (hr : s.roots.contains id = false)
    (hnone : ((s.nodes[id]?).bind fun nd => nd.parent) = none ∨
      ∃ p, ((s.nodes[id]?).bind fun nd => nd.parent) = some p
        ∧ ((s.nodes[p]?).bind fun pd => pd.children) = none) :
    remove s id = s := by
  unfold remove
  rw [if_neg (by rw [hr]; exact fun hh => Bool.noConfusion hh)]
  rcases hnone with hp | ⟨p, hp, hc⟩
  · rw [hp]
  · simp only [hp, hc]

/-- C5 (amended): `remove` locates the node's sibling array (the root
sequence for a root, else the parent's children).  When that array exists it
deletes the node in place — an actual deletion when present, a no-op deletion
when absent — and fires exactly one change event whose payload is the model;
only a node with no resolvable sibling array at all (a non-root whose parent
is unset or whose parent's children are unresolved) is a silent no-op.  The
`del` facts make the in-place deletion explicit. -/
theorem C5_remove_semantics :
    (∀ (l : List NodeId) (x : NodeId),
      (x ∈ l → (del l x).length + 1 = l.length) ∧ (x ∉ l → del l x = l))
    ∧ (∀ (s : ModelState) (id : NodeId), s.roots.contains id = true →
        (remove s id).roots = del s.roots id ∧ (remove s id).nodes = s.nodes
        ∧ (remove s id).events = s.events ++ [ModelEvent.model])
    ∧ (∀ (s : ModelState) (id p : NodeId) (pd : TypeItemData) (sib : List NodeId),
        s.roots.contains id = false →
        ((s.nodes[id]?).bind fun nd => nd.parent) = some p →
        s.nodes[p]? = some pd → pd.children = some sib →
        (remove s id).roots = s.roots
        ∧ (remove s id).nodes = s.nodes.set p { pd with children := some (del sib id) }
        ∧ (remove s id).events = s.events ++ [ModelEvent.model])
    ∧ (∀ (s : ModelState) (id : NodeId), s.roots.contains id = false →
        (((s.nodes[id]?).bind fun nd => nd.parent) = none ∨
          ∃ p, ((s.nodes[id]?).bind fun nd => nd.parent) = some p
            ∧ ((s.nodes[p]?).bind fun pd => pd.children) = none) →
        remove s id = s) := by
  refine ⟨fun l x => ⟨del_length l x, del_not_mem l x⟩, ?_, ?_, remove_noop_case⟩
  · intro s id hr
    rw [remove_root_case s id hr]
    exact ⟨rfl, rfl, rfl⟩
  · intro s id p pd sib hr hp hpd hc
    rw [remove_sibling_case s id p pd sib hr hp hpd hc]
    exact ⟨rfl, rfl, rfl⟩

/-- The state after removing node 1: node 0's children are now `some []` and
one change event has fired. -/
def exS2 : ModelState := remove exSub1 1

/-- Counterexample for C5 as stated: in `exS2`, node 1 is not present in any
sibling array (it is not a root, and its parent's resolved children array is
empty), yet `remove` is not a silent no-op — it fires another change event,
because the JavaScript truthiness test `if (siblings)` accepts the empty
array.  The final conjunct shows the only state change is the appended event
(and its forwarded adapter refresh). -/
theorem C5_counterexample :
    exS2.roots.contains 1 = false
    ∧ ((exS2.nodes[1]?).bind fun nd => nd.parent) = some 0
    ∧ ((exS2.nodes[0]?).bind fun pd => pd.children) = some []
    ∧ remove exS2 1 =
        { exS2 with
            events := exS2.events ++ [ModelEvent.model]
            adapterEvents := exS2.adapterEvents ++ [none] } := by
  decide

/-- Witness for C5: removing root 1 from the 3-root fixture shrinks the root
sequence from 3 to 2 and fires exactly one model-payload event. -/
theorem C5_witness :
    ((remove exRoots3 1).roots = del exRoots3.roots 1
      ∧ (remove exRoots3 1).nodes = exRoots3.nodes
      ∧ (remove exRoots3 1).events = exRoots3.events ++ [ModelEvent.model])
    ∧ (del exRoots3.roots 1).length + 1 = exRoots3.roots.length :=
  ⟨C5_remove_semantics.2.1 exRoots3 1 (by decide),
   (C5_remove_semantics.1 exRoots3.roots 1).1 (by decide)⟩

/-! ### C6 — sibling ordering and stability -/

theorem charListLt_irrefl (l : List Char) : charListLt l l = false := by
  induction l with
  | nil => rfl
  | cons c cs ih =>
    unfold charListLt
    rw [if_neg (lt_irrefl _), if_neg (lt_irrefl _)]
    exact ih

theorem charListLt_trans (a : List Char) : ∀ (b c : List Char),
    charListLt a b = true → charListLt b c = true → charListLt a c = true := by
  induction a with
  | nil =>
    intro b c h1 h2
    cases b with
    | nil => cases h1
    | cons y ys =>
      cases c with
      | nil => cases h2
      | cons z zs => rfl
  | cons x xs ih =>
    intro b c h1 h2
    cases b with
    | nil => cases h1
    | cons y ys =>
      cases c with
      | nil => cases h2
      | cons z zs =>
        unfold charListLt at h1 h2 ⊢
        by_cases hxy : x.toNat < y.toNat
        · by_cases hyz : y.toNat < z.toNat
          · rw [if_pos (lt_trans hxy hyz)]
          · rw [if_pos hxy] at h1
            rw [if_neg hyz] at h2
            by_cases hzy : z.toNat < y.toNat
            · rw [if_pos hzy] at h2; cases h2
            · rw [if_pos (show x.toNat < z.toNat by omega)]
        · rw [if_neg hxy] at h1
          by_cases hyx : y.toNat < x.toNat
          · rw [if_pos hyx] at h1; cases h1
          · rw [if_neg hyx] at h1
            by_cases hyz : y.toNat < z.toNat
            · rw [if_pos (show x.toNat < z.toNat by omega)]
            · rw [if_neg hyz] at h2
              by_cases hzy : z.toNat < y.toNat
              · rw [if_pos hzy] at h2; cases h2
              · rw [if_neg hzy] at h2
                rw [if_neg (show ¬ x.toNat < z.toNat by omega),
                  if_neg (show ¬ z.toNat < x.toNat by omega)]
                exact ih ys zs h1 h2

theorem charListLt_eq_of_not (a : List Char) : ∀ (b : List Char),
    charListLt a b = false → charListLt b a = false → a = b := by
  induction a with
  | nil =>
    intro b h1 h2
    cases b with
    | nil => rfl
    | cons y ys => cases h1
  | cons x xs ih =>
    intro b h1 h2
    cases b with
    | nil => cases h2
    | cons y ys =>
      unfold charListLt at h1 h2
      by_cases hxy : x.toNat < y.toNat
      · rw [if_pos hxy] at h1; cases h1
      · by_cases hyx : y.toNat < x.toNat
        · rw [if_pos hyx] at h2; cases h2
        · rw [if_neg hxy, if_neg hyx] at h1
          rw [if_neg hyx, if_neg hxy] at h2
          have hch : x = y :=
            Char.ext (UInt32.toNat.inj (le_antisymm (le_of_not_lt hyx) (le_of_not_lt hxy)))
          rw [hch, ih ys h1 h2]

theorem strLt_irrefl (a : String) : strLt a a = false := charListLt_irrefl a.data

theorem strLt_trans (a b c : String) (h1 : strLt a b = true) (h2 : strLt b c = true) :
    strLt a c = true := charListLt_trans a.data b.data c.data h1 h2

theorem strLt_eq_of_not (a b : String) (h1 : strLt a b = false) (h2 : strLt b a = false) :
    a = b := by
  have hd := charListLt_eq_of_not a.data b.data h1 h2
  cases a with
  | mk da =>
    cases b with
    | mk db => exact congrArg String.mk hd

theorem strLt_asymm (a b : String) (h : strLt a b = true) : strLt b a = false := by
  cases hba : strLt b a with
  | false => rfl
  | true =>
    have := strLt_trans a b a h hba
    rw [strLt_irrefl] at this
    cases this

theorem strLt_nlt_trans (a b c : String) (h1 : strLt b a = false) (h2 : strLt c b = false) :
    strLt c a = false := by
  cases hbc : strLt b c with
  | true =>
    cases hca : strLt c a with
    | false => rfl
    | true =>
      have := strLt_trans b c a hbc hca
      rw [this] at h1
      cases h1
  | false =>
    rw [strLt_eq_of_not b c hbc h2] at h1
    exact h1

theorem strLt_lt_of_lt_of_nlt (a b c : String) (h1 : strLt a b = true)
    (h2 : strLt c b = false) : strLt a c = true := by
  cases hbc : strLt b c with
  | true => exact strLt_trans a b c h1 hbc
  | false => rw [← strLt_eq_of_not b c hbc h2]; exact h1

theorem localeCompare_neg_iff (a b : String) : localeCompare a b < 0 ↔ strLt a b = true := by
  unfold localeCompare
  cases hab : strLt a b with
  | true => exact iff_of_true (by norm_num) rfl
  | false =>
    cases hba : strLt b a with
    | true =>
      rw [if_neg (by simp), if_pos rfl]
      exact iff_of_false (by norm_num) (by simp)
    | false =>
      rw [if_neg (by simp), if_neg (by simp)]
      exact iff_of_false (by norm_num) (by simp)

theorem localeCompare_nonpos_iff (a b : String) :
    localeCompare a b ≤ 0 ↔ strLt b a = false := by
  unfold localeCompare
  cases hab : strLt a b with
  | true =>
    rw [if_pos rfl]
    exact iff_of_true (by norm_num) (strLt_asymm a b hab)
  | false =>
    cases hba : strLt b a with
    | true =>
      rw [if_neg (by simp), if_pos rfl]
      exact iff_of_false (by norm_num) (by simp)
    | false =>
      rw [if_neg (by simp), if_neg (by simp)]
      exact iff_of_true le_rfl rfl

theorem localeCompare_self (a : String) : localeCompare a a = 0 := by
  unfold localeCompare
  rw [strLt_irrefl]
  norm_num

theorem compareItems_neg_iff (a b : TypeHierarchyItem) :
    compareItems a b < 0 ↔
      (strLt (kindToString b.kind) (kindToString a.kind) = true
        ∨ (kindToString a.kind = kindToString b.kind ∧ strLt a.name b.name = true)) := by
  unfold compareItems
  by_cases hk : kindToString a.kind = kindToString b.kind
  · rw [if_pos hk, localeCompare_neg_iff]
    constructor
    · intro hn; exact Or.inr ⟨hk, hn⟩
    · rintro (hlt | ⟨-, hn⟩)
      · rw [hk, strLt_irrefl] at hlt; cases hlt
      · exact hn
  · rw [if_neg hk, localeCompare_neg_iff]
    constructor
    · intro hlt; exact Or.inl hlt
    · rintro (hlt | ⟨heq, -⟩)
      · exact hlt
      · exact absurd heq hk

theorem compareItems_nonpos_iff (a b : TypeHierarchyItem) :
    compareItems a b ≤ 0 ↔
      (strLt (kindToString b.kind) (kindToString a.kind) = true
        ∨ (kindToString a.kind = kindToString b.kind ∧ strLt b.name a.name = false)) := by
  unfold compareItems
  by_cases hk : kindToString a.kind = kindToString b.kind
  · rw [if_pos hk, localeCompare_nonpos_iff]
    constructor
    · intro hn; exact Or.inr ⟨hk, hn⟩
    · rintro (hlt | ⟨-, hn⟩)
      · rw [hk, strLt_irrefl] at hlt; cases hlt
      · exact hn
  · rw [if_neg hk, localeCompare_nonpos_iff]
    constructor
    · intro hle
      cases hba : strLt (kindToString b.kind) (kindToString a.kind) with
      | true => exact Or.inl rfl
      | false => exact absurd (strLt_eq_of_not _ _ hle hba) hk
    · rintro (hlt | ⟨heq, -⟩)
      · exact strLt_asymm _ _ hlt
      · exact absurd heq hk

theorem compareItems_le_trans (a b c : TypeHierarchyItem)
    (h1 : compareItems a b ≤ 0) (h2 : compareItems b c ≤ 0) : compareItems a c ≤ 0 := by
  rw [compareItems_nonpos_iff] at h1 h2 ⊢
  rcases h1 with h1 | ⟨e1, n1⟩ <;> rcases h2 with h2 | ⟨e2, n2⟩
  · exact Or.inl (strLt_trans _ _ _ h2 h1)
  · exact Or.inl (by rw [← e2]; exact h1)
  · exact Or.inl (by rw [e1]; exact h2)
  · exact Or.inr ⟨e1.trans e2, strLt_nlt_trans _ _ _ n1 n2⟩

theorem compareItems_lt_of_lt_of_le (a b c : TypeHierarchyItem)
    (h1 : compareItems a b < 0) (h2 : compareItems b c ≤ 0) : compareItems a c < 0 := by
  rw [compareItems_neg_iff] at h1 ⊢
  rw [compareItems_nonpos_iff] at h2
  rcases h1 with h1 | ⟨e1, n1⟩ <;> rcases h2 with h2 | ⟨e2, n2⟩
  · exact Or.inl (strLt_trans _ _ _ h2 h1)
  · exact Or.inl (by rw [← e2]; exact h1)
  · exact Or.inl (by rw [e1]; exact h2)
  · exact Or.inr ⟨e1.trans e2, strLt_lt_of_lt_of_nlt _ _ _ n1 n2⟩

theorem compareItems_flip (a b : TypeHierarchyItem) (h : ¬ compareItems a b < 0) :
    compareItems b a ≤ 0 := by
  rw [compareItems_neg_iff] at h
  rw [compareItems_nonpos_iff]
  by_cases hk : kindToString a.kind = kindToString b.kind
  · refine Or.inr ⟨hk.symm, ?_⟩
    cases hn : strLt a.name b.name with
    | false => rfl
    | true => exact absurd (Or.inr ⟨hk, hn⟩) h
  · cases hab : strLt (kindToString a.kind) (kindToString b.kind) with
    | true => exact Or.inl rfl
    | false =>
      cases hba : strLt (kindToString b.kind) (kindToString a.kind) with
      | true => exact absurd (Or.inl hba) h
      | false => exact absurd (strLt_eq_of_not _ _ hab hba) hk

theorem mem_insertCmp (cmp : α → α → Int) (x a : α) (l : List α) :
    a ∈ insertCmp cmp x l ↔ a = x ∨ a ∈ l := by
  induction l with
  | nil => simp [insertCmp]
  | cons y ys ih =>
    unfold insertCmp
    by_cases h : cmp x y < 0
    · rw [if_pos h]
      simp [List.mem_cons]
    · rw [if_neg h]
      simp only [List.mem_cons, ih]
      tauto

theorem pairwise_insertCmp (x : TypeHierarchyItem) (l : List TypeHierarchyItem)
    (h : l.Pairwise (fun a b => compareItems a b ≤ 0)) :
    (insertCmp compareItems x l).Pairwise (fun a b => compareItems a b ≤ 0) := by
  induction l with
  | nil => simp [insertCmp]
  | cons y ys ih =>
    rcases List.pairwise_cons.1 h with ⟨hy, hys⟩
    unfold insertCmp
    by_cases hb : compareItems x y < 0
    · rw [if_pos hb]
      refine List.pairwise_cons.2 ⟨?_, h⟩
      intro z hz
      rcases List.mem_cons.1 hz with rfl | hz'
      · exact le_of_lt hb
      · exact compareItems_le_trans x y z (le_of_lt hb) (hy z hz')
    · rw [if_neg hb]
      refine List.pairwise_cons.2 ⟨?_, ih hys⟩
      intro z hz
      rcases (mem_insertCmp compareItems x z ys).1 hz with hzx | hz'
      · rw [hzx]; exact compareItems_flip x y hb
      · exact hy z hz'

theorem sortCmp_pairwise (l : List TypeHierarchyItem) :
    (sortCmp compareItems l).Pairwise (fun a b => compareItems a b ≤ 0) := by
  have haux : ∀ (l acc : List TypeHierarchyItem),
      acc.Pairwise (fun a b => compareItems a b ≤ 0) →
      (l.foldl (fun acc x => insertCmp compareItems x acc) acc).Pairwise
        (fun a b => compareItems a b ≤ 0) := by
    intro l
    induction l with
    | nil => intro acc h; exact h
    | cons x xs ih => intro acc h; exact ih _ (pairwise_insertCmp x acc h)
  exact haux l [] List.Pairwise.nil

/-- The sort key of the comparator: kind string and name.  Two items tie in
the comparator exactly when both components agree. -/
def keyMatch (ks n : String) (a : TypeHierarchyItem) : Bool :=
  (kindToString a.kind == ks) && (a.name == n)

theorem keyMatch_eq_true_iff (ks n : String) (a : TypeHierarchyItem) :
    keyMatch ks n a = true ↔ kindToString a.kind = ks ∧ a.name = n := by
  unfold keyMatch
  simp [Bool.and_eq_true, beq_iff_eq]

theorem filter_insertCmp (ks n : String) (x : TypeHierarchyItem)
    (l : List TypeHierarchyItem)
    (hl : l.Pairwise (fun a b => compareItems a b ≤ 0)) :
    (insertCmp compareItems x l).filter (keyMatch ks n)
      = l.filter (keyMatch ks n) ++ (if keyMatch ks n x then [x] else []) := by
  induction l with
  | nil =>
    unfold insertCmp
    by_cases hx : keyMatch ks n x = true <;> simp [List.filter, hx]
  | cons y ys ih =>
    rcases List.pairwise_cons.1 hl with ⟨hy, hys⟩
    unfold insertCmp
    by_cases hb : compareItems x y < 0
    · rw [if_pos hb]
      by_cases hx : keyMatch ks n x = true
      · have hall : (y :: ys).filter (keyMatch ks n) = [] := by
          rw [List.filter_eq_nil_iff]
          intro z hz hpz
          have hxz : compareItems x z < 0 := by
            rcases List.mem_cons.1 hz with rfl | hz'
            · exact hb
            · exact compareItems_lt_of_lt_of_le x y z hb (hy z hz')
          obtain ⟨hk1, hn1⟩ := (keyMatch_eq_true_iff ks n z).1 hpz
          obtain ⟨hk2, hn2⟩ := (keyMatch_eq_true_iff ks n x).1 hx
          have hzero : compareItems x z = 0 := by
            unfold compareItems
            rw [if_pos (hk2.trans hk1.symm), hn1, hn2, localeCompare_self]
          rw [hzero] at hxz
          exact absurd hxz (by norm_num)
        rw [List.filter_cons_of_pos hx, hall]
        simp [hx]
      · rw [List.filter_cons_of_neg (by simpa using hx)]
        simp [hx]
    · rw [if_neg hb]
      rw [List.filter_cons, ih hys, List.filter_cons]
      by_cases hyy : keyMatch ks n y = true <;> simp [hyy]

theorem sortCmp_filter (l : List TypeHierarchyItem) (ks n : String) :
    (sortCmp compareItems l).filter (keyMatch ks n) = l.filter (keyMatch ks n) := by
  have haux : ∀ (l acc : List TypeHierarchyItem),
      acc.Pairwise (fun a b => compareItems a b ≤ 0) →
      (l.foldl (fun acc x => insertCmp compareItems x acc) acc).filter (keyMatch ks n)
        = acc.filter (keyMatch ks n) ++ l.filter (keyMatch ks n) := by
    intro l
    induction l with
    | nil => intro acc h; simp
    | cons x xs ih =>
      intro acc h
      show (xs.foldl _ (insertCmp compareItems x acc)).filter _ = _
      rw [ih _ (pairwise_insertCmp x acc h), filter_insertCmp ks n x acc h, List.filter_cons]
      by_cases hx : keyMatch ks n x = true <;> simp [hx]
  simpa using haux l [] List.Pairwise.nil

/-- C6: the sibling order produced by one child resolution.  For two
positions `i < j` of the sorted sibling sequence: different kind strings mean
the later one is lexicographically smaller (kind descending — so A precedes B
iff A's kind string is greater), and equal kind strings mean the names are
ascending.  Stability: filtering by any comparator key (kind string and name)
yields the same subsequence, in the same order, as filtering the fetched
input.  Finally, `_resolveTypes` produces its child nodes exactly in this
sorted item order. -/
theorem C6_sibling_ordering :
    (∀ (l : List TypeHierarchyItem) (i j : Nat)
       (hi : i < (sortCmp compareItems l).length)
       (hj : j < (sortCmp compareItems l).length), i < j →
       (kindToString ((sortCmp compareItems l)[i]).kind
           ≠ kindToString ((sortCmp compareItems l)[j]).kind →
         strLt (kindToString ((sortCmp compareItems l)[j]).kind)
           (kindToString ((sortCmp compareItems l)[i]).kind) = true)
       ∧ (kindToString ((sortCmp compareItems l)[i]).kind
           = kindToString ((sortCmp compareItems l)[j]).kind →
         strLt ((sortCmp compareItems l)[j]).name ((sortCmp compareItems l)[i]).name = false))
    ∧ (∀ (l : List TypeHierarchyItem) (ks n : String),
        (sortCmp compareItems l).filter (keyMatch ks n) = l.filter (keyMatch ks n))
    ∧ ∀ (fetch : Fetch) (s : ModelState) (id : NodeId) (nd : TypeItemData)
        (ts : List TypeHierarchyItem),
        s.nodes[id]? = some nd → fetch nd.item (queryDirection s.view) = some ts →
        ((resolveTypes fetch s id).2).map
            (fun c => ((resolveTypes fetch s id).1.nodes[c]?).map fun d => d.item)
          = (sortCmp compareItems ts).map (fun it => some it) := by
  refine ⟨?_, sortCmp_filter, ?_⟩
  · intro l i j hi hj hij
    have hle : compareItems ((sortCmp compareItems l)[i]) ((sortCmp compareItems l)[j]) ≤ 0 :=
      (List.pairwise_iff_getElem.1 (sortCmp_pairwise l)) i j hi hj hij
    rw [compareItems_nonpos_iff] at hle
    constructor
    · intro hne
      rcases hle with hlt | ⟨heq, -⟩
      · exact hlt
      · exact absurd heq hne
    · intro heq
      rcases hle with hlt | ⟨-, hn⟩
      · rw [heq, strLt_irrefl] at hlt; cases hlt
      · exact hn
  · intro fetch s id nd ts h hf
    rw [resolveTypes_some fetch s id nd ts h hf]
    rw [List.map_map]
    apply List.ext_getElem
    · simp
    · intro i h1 h2
      simp only [List.getElem_map, List.getElem_range, Function.comp]
      have hi : i < (sortCmp compareItems ts).length := by simpa using h2
      rw [List.getElem?_append_right (Nat.le_add_left _ _)]
      have hik : i + s.nodes.length - s.nodes.length = i := by omega
      rw [hik, List.getElem?_map, List.getElem?_eq_getElem hi]
      rfl

/-- Three items for the C6 witness: kinds 4 and 10, names chosen so that the
kind-descending, name-ascending order is observable, with a duplicate key to
exercise stability. -/
def exSortIn : List TypeHierarchyItem :=
  [mkItem "beta" 4 "file:///b", mkItem "alpha" 10 "file:///a", mkItem "alpha" 4 "file:///c"]

/-- Witness for C6: on the concrete input, position 0 before position 2 have
different kinds with the later kind string smaller; positions 0 and 1 share a
kind and have ascending names; filtering by the duplicate key preserves the
input order; and a concrete resolution maps the sorted items onto its child
nodes.  ("4" > "10" lexicographically, so kind 4 sorts first.) -/
theorem C6_witness :
    (kindToString ((sortCmp compareItems exSortIn).get ⟨0, by decide⟩).kind
        ≠ kindToString ((sortCmp compareItems exSortIn).get ⟨2, by decide⟩).kind →
      strLt (kindToString ((sortCmp compareItems exSortIn).get ⟨2, by decide⟩).kind)
        (kindToString ((sortCmp compareItems exSortIn).get ⟨0, by decide⟩).kind) = true)
    ∧ (kindToString ((sortCmp compareItems exSortIn).get ⟨0, by decide⟩).kind
        = kindToString ((sortCmp compareItems exSortIn).get ⟨1, by decide⟩).kind →
      strLt ((sortCmp compareItems exSortIn).get ⟨1, by decide⟩).name
        ((sortCmp compareItems exSortIn).get ⟨0, by decide⟩).name = false)
    ∧ (sortCmp compareItems exSortIn).filter (keyMatch "4" "alpha")
        = exSortIn.filter (keyMatch "4" "alpha")
    ∧ ((resolveTypes exFetch1 exSub0 0).2).map
        (fun c => ((resolveTypes exFetch1 exSub0 0).1.nodes[c]?).map fun d => d.item)
      = (sortCmp compareItems [exR1]).map (fun it => some it) :=
  ⟨(C6_sibling_ordering.1 exSortIn 0 2 (by decide) (by decide) (by decide)).1,
   (C6_sibling_ordering.1 exSortIn 0 1 (by decide) (by decide) (by decide)).2,
   C6_sibling_ordering.2.1 exSortIn "4" "alpha",
   C6_sibling_ordering.2.2 exFetch1 exSub0 0
     { item := exR0, parent := none, children := none, expand := false } [exR1]
     (by decide) (by decide)⟩

end TypesView
